import Mathlib

/-!
# Recyclr receipt pipeline — shallow embedding

Shallow embedding of the receipt-to-items core of the Recyclr repository:
the line filter (`src/logic.py` `get_items_only`, `src/src/plastic_tracker.py`
`PlasticTracker.get_items_from_text`), the keyword classifier
(`PlasticTracker.detect_plastic_items`), the carbon-footprint lookup
(`PlasticItem._calculate_carbon_footprint`) and the byte-to-items pipeline
(`logic.analyze_receipt`).

Texts are modelled as `List Char` (ASCII model of Python `str`: `str.upper`
is `Char.toUpper`, `str.strip` trims `Char.isWhitespace`, `str.splitlines`
splits on `\n`, `\r` and `\r\n`).  Carbon footprints are the exact decimal
constants of the source, as rationals: the program only stores and compares
them, it never performs float arithmetic on them in the code under study.
The external image codec and OCR engine are abstracted as function
parameters of the pipeline; the tracker's on-disk JSON file is modelled as
an optional stored item list.
-/

namespace Recyclr

/-- Python `str.upper()` on the ASCII model: uppercase every character. -/
def toUpperL (l : List Char) : List Char := l.map Char.toUpper

/-- Python `str.strip()`: drop leading and trailing whitespace. -/
def trimL (l : List Char) : List Char :=
  ((l.dropWhile Char.isWhitespace).reverse.dropWhile Char.isWhitespace).reverse

/-- Python `k in s` substring test. -/
def containsSub (k : List Char) : List Char → Bool
  | [] => k.isEmpty
  | c :: t => k.isPrefixOf (c :: t) || containsSub k t

/-- Python `str.splitlines()` restricted to the line breaks that occur in
this program's data: `\n`, `\r` and the pair `\r\n` each end a line, and a
trailing break produces no trailing empty line. -/
def splitlines : List Char → List (List Char)
  | [] => []
  | '\r' :: '\n' :: cs => [] :: splitlines cs
  | '\n' :: cs => [] :: splitlines cs
  | '\r' :: cs => [] :: splitlines cs
  | c :: cs =>
    match splitlines cs with
    | [] => [[c]]
    | l :: ls => (c :: l) :: ls

/-- The exclusion keyword list, identical in `logic.get_items_only` and
`PlasticTracker.get_items_from_text`. -/
def excluded_keywords : List (List Char) :=
  ["SUBTOTAL", "TOTAL", "TAX", "CHANGE", "PAY", "PURCHASE",
   "ITEMS SOLD", "DEBIT", "EFT", "REF", "AID", "NETWORK",
   "TERMINAL", "ID", "LOW PRICES", "GIVE US FEEDBACK",
   "WALMART", "MGR:", "ELIZABETH", "STR", "TR#", "THANK",
   "DATE", "TIME", "APPROVAL", "ACCOUNT", "CASHIER"].map String.data

/-- The loop body of `logic.get_items_only` for one line: trim and
uppercase; skip the line when it contains an exclusion keyword or is empty;
keep it when it has both a digit and a letter. -/
def keep_line (line : List Char) : Option (List Char) :=
  let clean_line := toUpperL (trimL line)
  if excluded_keywords.any (fun keyword => containsSub keyword clean_line)
      || clean_line == [] then
    none
  else if clean_line.any Char.isDigit && clean_line.any Char.isAlpha then
    some clean_line
  else
    none

/-- `logic.get_items_only`: apply `keep_line` to each line of the text. -/
def get_items_only (text : List Char) : List (List Char) :=
  (splitlines text).filterMap keep_line

/-- The loop body of `PlasticTracker.get_items_from_text` for one line:
same as `keep_line` but with the exclusion test and the emptiness test as
two separate skips, as in the source. -/
def keep_line_tracker (line : List Char) : Option (List Char) :=
  let clean_line := toUpperL (trimL line)
  if excluded_keywords.any (fun keyword => containsSub keyword clean_line) then
    none
  else if clean_line == [] then
    none
  else if clean_line.any Char.isDigit && clean_line.any Char.isAlpha then
    some clean_line
  else
    none

/-- `PlasticTracker.get_items_from_text`. -/
def get_items_from_text (text : List Char) : List (List Char) :=
  (splitlines text).filterMap keep_line_tracker

/-- The ordered category → keyword table of `PlasticTracker.__init__`
(`self.plastic_keywords`); a Python 3.7+ dict iterates in declaration
order, so the table is an ordered association list. -/
def plastic_keywords : List (String × List (List Char)) :=
  [("bottle", ["BOTTLE", "WATER", "SODA", "BEVERAGE"].map String.data),
   ("container", ["CONTAINER", "YOGURT", "SALAD", "TAKEOUT"].map String.data),
   ("bag", ["BAG", "PLASTIC BAG", "SHOPPING BAG"].map String.data),
   ("cup", ["CUP", "COFFEE", "DRINK"].map String.data),
   ("utensil", ["UTENSIL", "FORK", "SPOON", "KNIFE", "CUTLERY"].map String.data)]

/-- The lookup table of `PlasticItem._calculate_carbon_footprint`. -/
def footprints : List (String × ℚ) :=
  [("bottle", 82.8), ("container", 55.2), ("bag", 33.0),
   ("cup", 28.5), ("utensil", 18.3)]

/-- `footprints.get(self.category, 40.0)`: association-list lookup with the
defensive default. -/
def calculate_carbon_footprint (category : String) : ℚ :=
  ((footprints.find? fun p => p.1 == category).map Prod.snd).getD 40.0

/-- A `PlasticItem` as constructed by `PlasticItem.__init__`.  The
process-unique `id` (a fresh UUID) and the `date` timestamp are external
nondeterminism and are not modelled; the remaining fields are the
constructor's. -/
structure PlasticItem where
  name : List Char
  category : String
  receipt_id : String
  carbon_footprint : ℚ
  recycled : Bool
deriving DecidableEq, Repr

/-- `PlasticItem(name, category, receipt_id)`: the footprint is computed
from the category at construction and `recycled` starts `False`. -/
def mkPlasticItem (name : List Char) (category : String) (receipt_id : String) :
    PlasticItem :=
  { name := name, category := category, receipt_id := receipt_id,
    carbon_footprint := calculate_carbon_footprint category, recycled := false }

/-- The mutable state `PlasticTracker` touches: its in-memory `self.items`
list and the contents of its storage file on disk (`none` = file absent,
`some l` = the file holds the serialization of `l`). -/
structure TrackerState where
  items : List PlasticItem
  storage : Option (List PlasticItem)
deriving DecidableEq, Repr

/-- The inner `for category, keywords in self.plastic_keywords.items()`
loop of `detect_plastic_items`: the first category one of whose keywords is
a substring of the uppercased item wins (`break`); no match yields nothing. -/
def classifyLoop (item_upper : List Char) :
    List (String × List (List Char)) → Option String
  | [] => none
  | (category, keywords) :: rest =>
    if keywords.any fun keyword => containsSub keyword item_upper then
      some category
    else
      classifyLoop item_upper rest

/-- Category resolution for one candidate line. -/
def classifyLine (item : List Char) : Option String :=
  classifyLoop (toUpperL item) plastic_keywords

/-- The outer loop of `detect_plastic_items`: each matched line's fresh
`PlasticItem` is appended both to the returned `plastic_items` list and to
`self.items`. -/
def detectLoop (receipt_id : String) :
    List (List Char) → List PlasticItem × List PlasticItem →
      List PlasticItem × List PlasticItem
  | [], acc => acc
  | item :: rest, (plastic_items, self_items) =>
    match classifyLine item with
    | some category =>
      let p := mkPlasticItem item category receipt_id
      detectLoop receipt_id rest (plastic_items ++ [p], self_items ++ [p])
    | none => detectLoop receipt_id rest (plastic_items, self_items)

/-- `PlasticTracker.detect_plastic_items`: run the matching loop, then
`self.save_items()` — which rewrites the storage file with the whole of
`self.items` — and return the new items. -/
def detect_plastic_items (st : TrackerState) (items : List (List Char))
    (receipt_id : String) : List PlasticItem × TrackerState :=
  let r := detectLoop receipt_id items ([], st.items)
  (r.1, { items := r.2, storage := some r.2 })

/-! ## The byte-to-items pipeline of `logic.py`

`preprocess_image` decodes the input bytes with the external image codec
(`PIL.Image.open(...).convert("L")`, which raises on undecodable bytes —
modelled as an `Option`-valued `decode` parameter) and then applies the pure
numeric normalization chain (resize, bilateral filter, adaptive threshold,
morphological opening — opaque numerics, modelled as a `transform`
parameter).  `extract_text` delegates to the external OCR engine, modelled
as an `Except`-valued `ocr` parameter. -/

/-- Errors of the pipeline (spec §7). -/
inductive PipelineError where
  | decodeError
  | ocrEngineError
deriving DecidableEq, Repr

/-- `logic.preprocess_image`: decode or fail, then normalize. -/
def preprocess_image {Img Proc : Type} (decode : List Nat → Option Img)
    (transform : Img → Proc) (image_bytes : List Nat) :
    Except PipelineError Proc :=
  match decode image_bytes with
  | none => .error .decodeError
  | some image => .ok (transform image)

/-- The structured result of `logic.analyze_receipt`. -/
structure ReceiptResult where
  items : List (List Char)
  text : List Char
deriving DecidableEq, Repr

/-- `logic.analyze_receipt`: normalize, OCR, filter, return items and raw
text; any failure of the first two stages aborts the invocation. -/
def analyze_receipt {Img Proc : Type} (decode : List Nat → Option Img)
    (transform : Img → Proc) (ocr : Proc → Except PipelineError (List Char))
    (image_bytes : List Nat) : Except PipelineError ReceiptResult := do
  let processed ← preprocess_image decode transform image_bytes
  let text ← ocr processed
  let items := get_items_only text
  return { items := items, text := text }

/-! ## Derived characterizations (not from the source)

`filterLinesSpec` restates the Line Filter the way spec §4.3 words it, for
comparison with `get_items_only`; the remaining definitions are proof-side
characterizations used to state order and first-match properties. -/

/-- One line of the Line Filter as spec §4.3 words it: keep a line exactly
when its trimmed-and-uppercased form is non-empty, contains no exclusion
keyword as a substring, and contains at least one digit and at least one
letter; the kept line is that trimmed-and-uppercased form. -/
def filter_line_spec (line : List Char) : Option (List Char) :=
  let c := toUpperL (trimL line)
  if c ≠ [] ∧ (∀ k ∈ excluded_keywords, ¬containsSub k c = true) ∧
      (∃ ch ∈ c, ch.isDigit = true) ∧ (∃ ch ∈ c, ch.isAlpha = true) then
    some c
  else
    none

/-- The Line Filter as spec §4.3 words it, line by line. -/
def filterLinesSpec (text : List Char) : List (List Char) :=
  (splitlines text).filterMap filter_line_spec

/-- The categories whose keyword sets match a line, in declaration order. -/
def matchingCategories (item : List Char) : List String :=
  (plastic_keywords.filter fun p =>
    p.2.any fun keyword => containsSub keyword (toUpperL item)).map Prod.fst

/-- The items the classifier constructs for a line sequence, in input
order: one `PlasticItem` per line whose category resolution succeeds. -/
def produceItems (receipt_id : String) (items : List (List Char)) :
    List PlasticItem :=
  items.filterMap fun item =>
    (classifyLine item).map fun category => mkPlasticItem item category receipt_id

/-- A string with no line-break character; `splitlines` output lines and
filter output lines satisfy it. -/
def BreakFree (l : List Char) : Prop := ∀ c ∈ l, c ≠ '\n' ∧ c ≠ '\r'

/-! ## Character-level lemmas

`str.upper` is modelled by `Char.toUpper`, which only moves the 26 basic
latin lowercase letters; everything below reduces to arithmetic on
`Char.toNat`. -/

theorem char_toNat_inj {a b : Char} (h : a.toNat = b.toNat) : a = b :=
  Char.ext (UInt32.toNat.inj h)

theorem char_eq_iff_toNat {a b : Char} : a = b ↔ a.toNat = b.toNat :=
  ⟨fun h => h ▸ rfl, char_toNat_inj⟩

theorem toNat_ofNat_valid {n : Nat} (h : n < 55296) : (Char.ofNat n).toNat = n := by
  have hv : n.isValidChar := Or.inl h
  simp [Char.ofNat, hv, Char.ofNatAux, Char.toNat, UInt32.toNat]

theorem toNat_toUpper (c : Char) :
    c.toUpper.toNat =
      if 97 ≤ c.toNat ∧ c.toNat ≤ 122 then c.toNat - 32 else c.toNat := by
  show (if 97 ≤ c.toNat ∧ c.toNat ≤ 122 then Char.ofNat (c.toNat - 32) else c).toNat = _
  split_ifs with h
  · exact toNat_ofNat_valid (n := c.toNat - 32) (by omega)
  · rfl

theorem toUpper_toUpper (c : Char) : c.toUpper.toUpper = c.toUpper := by
  apply char_toNat_inj
  simp only [toNat_toUpper]
  split_ifs <;> omega

theorem isWhitespace_iff (c : Char) : c.isWhitespace = true ↔
    c.toNat = 32 ∨ c.toNat = 9 ∨ c.toNat = 13 ∨ c.toNat = 10 := by
  simp only [Char.isWhitespace, Bool.or_eq_true, decide_eq_true_eq]
  rw [@char_eq_iff_toNat c ' ', @char_eq_iff_toNat c '\t',
    @char_eq_iff_toNat c '\r', @char_eq_iff_toNat c '\n',
    show (' ').toNat = 32 from rfl, show ('\t').toNat = 9 from rfl,
    show ('\r').toNat = 13 from rfl, show ('\n').toNat = 10 from rfl]
  tauto

theorem isWhitespace_toUpper (c : Char) :
    c.toUpper.isWhitespace = c.isWhitespace := by
  rw [Bool.eq_iff_iff, isWhitespace_iff, isWhitespace_iff, toNat_toUpper]
  split_ifs with h <;> omega

theorem toUpper_ne_break {c : Char} (h : c ≠ '\n' ∧ c ≠ '\r') :
    c.toUpper ≠ '\n' ∧ c.toUpper ≠ '\r' := by
  simp only [ne_eq, char_eq_iff_toNat, toNat_toUpper,
    show ('\n').toNat = 10 from rfl, show ('\r').toNat = 13 from rfl] at h ⊢
  split_ifs <;> omega

/-! ## Trim and uppercase lemmas -/

theorem toUpperL_toUpperL (l : List Char) : toUpperL (toUpperL l) = toUpperL l := by
  simp [toUpperL, List.map_map, Function.comp_def, toUpper_toUpper]

theorem ws_comp_toUpper :
    (Char.isWhitespace ∘ Char.toUpper) = Char.isWhitespace :=
  funext isWhitespace_toUpper

theorem dropWhile_ws_toUpperL (l : List Char) :
    (toUpperL l).dropWhile Char.isWhitespace =
      toUpperL (l.dropWhile Char.isWhitespace) := by
  rw [toUpperL, List.dropWhile_map, ws_comp_toUpper, toUpperL]

theorem trimL_toUpperL (l : List Char) : trimL (toUpperL l) = toUpperL (trimL l) := by
  simp only [trimL, dropWhile_ws_toUpperL]
  rw [show ∀ m : List Char, (toUpperL m).reverse = toUpperL m.reverse from
    fun m => (List.map_reverse Char.toUpper m).symm, dropWhile_ws_toUpperL]
  rw [show ∀ m : List Char, (toUpperL m).reverse = toUpperL m.reverse from
    fun m => (List.map_reverse Char.toUpper m).symm]

theorem dropWhile_ws_idem (l : List Char) :
    (l.dropWhile Char.isWhitespace).dropWhile Char.isWhitespace =
      l.dropWhile Char.isWhitespace := by
  induction l with
  | nil => simp
  | cons a t ih =>
    by_cases h : a.isWhitespace = true
    · simp [List.dropWhile_cons, h, ih]
    · simp [List.dropWhile_cons, h]

theorem dropWhile_ws_trimL (l : List Char) :
    (trimL l).dropWhile Char.isWhitespace = trimL l := by
  rcases hx : trimL l with _ | ⟨a, t⟩
  · simp
  · have hpre : a :: t <+: l.dropWhile Char.isWhitespace := by
      rw [← hx]
      simp only [trimL]
      have hsuf :
          (l.dropWhile Char.isWhitespace).reverse.dropWhile Char.isWhitespace <:+
            (l.dropWhile Char.isWhitespace).reverse :=
        List.dropWhile_suffix _
      have h2 : ((l.dropWhile Char.isWhitespace).reverse.dropWhile
            Char.isWhitespace).reverse <+:
          (l.dropWhile Char.isWhitespace).reverse.reverse :=
        List.reverse_prefix.mpr hsuf
      rwa [List.reverse_reverse] at h2
    obtain ⟨r, hr⟩ := hpre
    have hhead : (l.dropWhile Char.isWhitespace).head? = some a := by
      rw [← hr]; rfl
    have hd := List.head?_dropWhile_not Char.isWhitespace l
    rw [hhead] at hd
    simp only at hd
    simp [List.dropWhile_cons, hd]

theorem trimL_trimL (l : List Char) : trimL (trimL l) = trimL l := by
  have B : (trimL l).reverse.dropWhile Char.isWhitespace = (trimL l).reverse := by
    simp only [trimL, List.reverse_reverse, dropWhile_ws_idem]
  calc trimL (trimL l)
      = (((trimL l).dropWhile Char.isWhitespace).reverse.dropWhile
          Char.isWhitespace).reverse := rfl
    _ = ((trimL l).reverse.dropWhile Char.isWhitespace).reverse := by
          rw [dropWhile_ws_trimL]
    _ = (trimL l).reverse.reverse := by rw [B]
    _ = trimL l := List.reverse_reverse _

/-! ## `splitlines` lemmas -/

theorem splitlines_breakFree (s : List Char) : ∀ l ∈ splitlines s, BreakFree l := by
  induction s using splitlines.induct with
  | case1 => simp [splitlines.eq_1]
  | case2 cs ih =>
    rw [splitlines.eq_2]
    intro l hl
    rcases List.mem_cons.mp hl with h | h
    · subst h; intro c hc; cases hc
    · exact ih l h
  | case3 cs ih =>
    rw [splitlines.eq_3]
    intro l hl
    rcases List.mem_cons.mp hl with h | h
    · subst h; intro c hc; cases hc
    · exact ih l h
  | case4 cs hne ih =>
    rw [splitlines.eq_4 cs hne]
    intro l hl
    rcases List.mem_cons.mp hl with h | h
    · subst h; intro c hc; cases hc
    · exact ih l h
  | case5 c cs h1 h2 h3 hnil ih =>
    rw [splitlines.eq_5 c cs h1 h2 h3, hnil]
    intro l hl
    rcases List.mem_cons.mp hl with h | h
    · subst h
      intro x hx
      rcases List.mem_singleton.mp hx with rfl
      exact ⟨h2, h3⟩
    · cases h
  | case6 c cs h1 h2 h3 l0 ls0 hcons ih =>
    rw [splitlines.eq_5 c cs h1 h2 h3, hcons]
    intro l hl
    rcases List.mem_cons.mp hl with h | h
    · subst h
      intro x hx
      rcases List.mem_cons.mp hx with rfl | hx'
      · exact ⟨h2, h3⟩
      · exact ih _ (by rw [hcons]; exact List.mem_cons_self _ _) x hx'
    · exact ih l (by rw [hcons]; exact List.mem_cons_of_mem _ h)

theorem splitlines_of_breakFree {l : List Char} (hne : l ≠ []) (hbf : BreakFree l) :
    splitlines l = [l] := by
  induction l with
  | nil => cases hne rfl
  | cons c cs ih =>
    have hc := hbf c (List.mem_cons_self c cs)
    rw [splitlines.eq_5 c cs (fun _ h _ => hc.2 h) hc.1 hc.2]
    rcases cs with _ | ⟨d, ds⟩
    · rw [splitlines.eq_1]
    · rw [ih (by simp) fun x hx => hbf x (List.mem_cons_of_mem c hx)]

theorem splitlines_append_newline {l : List Char} (hbf : BreakFree l)
    (t : List Char) : splitlines (l ++ '\n' :: t) = l :: splitlines t := by
  induction l with
  | nil => simp [splitlines.eq_3]
  | cons c cs ih =>
    have hc := hbf c (List.mem_cons_self c cs)
    rw [List.cons_append,
      splitlines.eq_5 c (cs ++ '\n' :: t) (fun _ h _ => hc.2 h) hc.1 hc.2,
      ih fun x hx => hbf x (List.mem_cons_of_mem c hx)]

theorem splitlines_intercalate (items : List (List Char))
    (h : ∀ l ∈ items, l ≠ [] ∧ BreakFree l) :
    splitlines (List.intercalate ['\n'] items) = items := by
  induction items with
  | nil => rfl
  | cons a rest ih =>
    rcases rest with _ | ⟨b, rs⟩
    · have ha := h a (List.mem_cons_self a [])
      rw [show List.intercalate ['\n'] [a] = a by
        simp [List.intercalate, List.intersperse]]
      exact splitlines_of_breakFree ha.1 ha.2
    · have ha := h a (List.mem_cons_self a (b :: rs))
      rw [show List.intercalate ['\n'] (a :: b :: rs) =
            a ++ '\n' :: List.intercalate ['\n'] (b :: rs) by
          simp [List.intercalate, List.intersperse],
        splitlines_append_newline ha.2,
        ih fun x hx => h x (List.mem_cons_of_mem a hx)]

/-! ## `keep_line` characterization -/

theorem keep_line_some {line c : List Char} (h : keep_line line = some c) :
    c = toUpperL (trimL line) ∧
      (excluded_keywords.any fun keyword => containsSub keyword c) = false ∧
      c ≠ [] ∧ (c.any Char.isDigit && c.any Char.isAlpha) = true := by
  by_cases hA : ((excluded_keywords.any fun keyword =>
      containsSub keyword (toUpperL (trimL line))) ||
        (toUpperL (trimL line) == [])) = true
  · simp only [keep_line] at h
    simp at h
    obtain ⟨⟨hkeys, hne⟩, -⟩ := h
    have hA' : (excluded_keywords.any fun keyword =>
        containsSub keyword (toUpperL (trimL line))) = true ∨
          (toUpperL (trimL line) == []) = true := by simpa using hA
    rcases hA' with h1 | h1
    · obtain ⟨k, hk, hck⟩ := List.any_eq_true.mp h1
      rw [hkeys k hk] at hck
      cases hck
    · exact absurd (by simpa using h1) hne
  · rw [Bool.not_eq_true] at hA
    by_cases hD : ((toUpperL (trimL line)).any Char.isDigit &&
        (toUpperL (trimL line)).any Char.isAlpha) = true
    · simp [keep_line, hA, hD] at h
      obtain ⟨⟨hkeys, hne⟩, hc⟩ := h
      subst hc
      have hfalse : (excluded_keywords.any fun keyword =>
          containsSub keyword (toUpperL (trimL line))) = false := by
        simp only [List.any_eq_false]
        intro x hx
        simp [hkeys x hx]
      exact ⟨rfl, hfalse, hne, hD⟩
    · rw [Bool.not_eq_true] at hD
      simp [keep_line, hA, hD] at h

theorem clean_idem (line : List Char) :
    toUpperL (trimL (toUpperL (trimL line))) = toUpperL (trimL line) := by
  rw [trimL_toUpperL, trimL_trimL, toUpperL_toUpperL]

theorem keep_line_fixed {line c : List Char} (h : keep_line line = some c) :
    keep_line c = some c := by
  obtain ⟨hc, hA, hne, hD⟩ := keep_line_some h
  have hclean : toUpperL (trimL c) = c := by rw [hc]; exact clean_idem line
  have hbe : (c == ([] : List Char)) = false := beq_eq_false_iff_ne.mpr hne
  simp [keep_line, hclean, hA, hbe, hD]

theorem trimL_subset (l : List Char) : trimL l ⊆ l := by
  intro x hx
  simp only [trimL, List.mem_reverse] at hx
  have h2 := List.dropWhile_subset (l := (l.dropWhile Char.isWhitespace).reverse)
    Char.isWhitespace hx
  rw [List.mem_reverse] at h2
  exact List.dropWhile_subset Char.isWhitespace h2

theorem keep_line_breakFree {line c : List Char} (hbf : BreakFree line)
    (h : keep_line line = some c) : BreakFree c := by
  obtain ⟨hc, -, -, -⟩ := keep_line_some h
  subst hc
  intro x hx
  rcases List.mem_map.mp hx with ⟨y, hy, rfl⟩
  exact toUpper_ne_break (hbf y (trimL_subset line hy))

/-! ## Classifier and tracker lemmas -/

theorem filterMap_sublist_map {α β : Type} (l : List α) (f : α → Option β)
    (g : α → β) (h : ∀ a b, f a = some b → b = g a) :
    (l.filterMap f).Sublist (l.map g) := by
  induction l with
  | nil => simp
  | cons a t ih =>
    rw [List.map_cons]
    cases hfa : f a with
    | none =>
      simp only [List.filterMap_cons, hfa]
      exact ih.cons _
    | some b =>
      simp only [List.filterMap_cons, hfa]
      rw [h a b hfa]
      exact ih.cons₂ _

theorem classifyLoop_eq_head (u : List Char)
    (l : List (String × List (List Char))) :
    classifyLoop u l =
      ((l.filter fun p => p.2.any fun k => containsSub k u).map Prod.fst).head? := by
  induction l with
  | nil => rfl
  | cons p rest ih =>
    rcases p with ⟨cat, kws⟩
    by_cases h : (kws.any fun k => containsSub k u) = true
    · simp [classifyLoop, h, List.filter_cons]
    · simp [classifyLoop, h, List.filter_cons, ih]

theorem classifyLine_eq (item : List Char) :
    classifyLine item = (matchingCategories item).head? :=
  classifyLoop_eq_head (toUpperL item) plastic_keywords

theorem detectLoop_eq (receipt_id : String) (items : List (List Char))
    (ps ss : List PlasticItem) :
    detectLoop receipt_id items (ps, ss) =
      (ps ++ produceItems receipt_id items,
        ss ++ produceItems receipt_id items) := by
  induction items generalizing ps ss with
  | nil => simp [detectLoop, produceItems]
  | cons item rest ih =>
    cases hc : classifyLine item with
    | none => simp [detectLoop, hc, produceItems, List.filterMap_cons, ih]
    | some cat =>
      simp [detectLoop, hc, produceItems, List.filterMap_cons, ih]

theorem detect_plastic_items_eq (st : TrackerState) (items : List (List Char))
    (rid : String) :
    detect_plastic_items st items rid =
      (produceItems rid items,
        { items := st.items ++ produceItems rid items,
          storage := some (st.items ++ produceItems rid items) }) := by
  simp [detect_plastic_items, detectLoop_eq]

theorem keep_line_eq_spec (line : List Char) :
    keep_line line = filter_line_spec line := by
  simp only [keep_line, filter_line_spec]
  by_cases hA : (excluded_keywords.any fun keyword =>
      containsSub keyword (toUpperL (trimL line))) = true
  · obtain ⟨k, hk, hck⟩ := List.any_eq_true.mp hA
    rw [if_pos (by rw [hA]; exact Bool.true_or _),
      if_neg (by rintro ⟨-, hkeys, -, -⟩; exact hkeys k hk hck)]
  · rw [Bool.not_eq_true] at hA
    by_cases hE : toUpperL (trimL line) = []
    · rw [if_pos (by rw [hA, hE]; rfl),
        if_neg (by rintro ⟨hne, -, -, -⟩; exact hne hE)]
    · have hbe : (toUpperL (trimL line) == ([] : List Char)) = false :=
        beq_eq_false_iff_ne.mpr hE
      rw [if_neg (by rw [hA, hbe]; simp)]
      by_cases hD : ((toUpperL (trimL line)).any Char.isDigit &&
          (toUpperL (trimL line)).any Char.isAlpha) = true
      · have hP : toUpperL (trimL line) ≠ [] ∧
            (∀ k ∈ excluded_keywords,
              ¬containsSub k (toUpperL (trimL line)) = true) ∧
            (∃ ch ∈ toUpperL (trimL line), ch.isDigit = true) ∧
            (∃ ch ∈ toUpperL (trimL line), ch.isAlpha = true) := by
          rcases Bool.and_eq_true_iff.mp hD with ⟨hd, ha⟩
          refine ⟨hE, ?_, ?_, ?_⟩
          · intro k hk
            have hfk := List.any_eq_false.mp hA k hk
            simp [hfk]
          · obtain ⟨x, hx, hxd⟩ := List.any_eq_true.mp hd
            exact ⟨x, hx, hxd⟩
          · obtain ⟨x, hx, hxa⟩ := List.any_eq_true.mp ha
            exact ⟨x, hx, hxa⟩
        rw [if_pos hD, if_pos hP]
      · rw [Bool.not_eq_true] at hD
        have hnP : ¬(toUpperL (trimL line) ≠ [] ∧
            (∀ k ∈ excluded_keywords,
              ¬containsSub k (toUpperL (trimL line)) = true) ∧
            (∃ ch ∈ toUpperL (trimL line), ch.isDigit = true) ∧
            (∃ ch ∈ toUpperL (trimL line), ch.isAlpha = true)) := by
          rintro ⟨-, -, ⟨x, hx, hxd⟩, ⟨y, hy, hya⟩⟩
          rcases Bool.and_eq_false_iff.mp hD with h1 | h1
          · have h2 := List.any_eq_false.mp h1 x hx
            rw [hxd] at h2
            exact h2 rfl
          · have h2 := List.any_eq_false.mp h1 y hy
            rw [hya] at h2
            exact h2 rfl
        rw [if_neg (by rw [hD]; simp), if_neg hnP]

/-! ## Claims -/

/-- C1: on the OCR text with lines WALMART, BOTTLED WATER 1.99, PLASTIC
BAG 0.10, SUBTOTAL 2.09, TOTAL 2.09, the line filter
(`get_items_from_text`) returns exactly the two item lines, and
classifying them (`detect_plastic_items`) yields exactly two
`PlasticItem`s, in order: category bottle with footprint 82.8 grams, then
category bag with footprint 33.0 grams. -/
theorem C1_scenario (st : TrackerState) (rid : String) :
    get_items_from_text ("WALMART\nBOTTLED WATER 1.99\nPLASTIC BAG 0.10\nSUBTOTAL 2.09\nTOTAL 2.09").data
        = [("BOTTLED WATER 1.99").data, ("PLASTIC BAG 0.10").data] ∧
      ((detect_plastic_items st
          [("BOTTLED WATER 1.99").data, ("PLASTIC BAG 0.10").data] rid).1.map
            fun i => (i.category, i.carbon_footprint)) =
        [("bottle", 82.8), ("bag", 33.0)] := by
  constructor
  · decide
  · rw [detect_plastic_items_eq]
    rfl

/-- C2 counterexample: `detect_plastic_items` is not side-effect free — on
the concrete input line BOTTLED WATER 1.99 with an initially empty tracker
whose storage file does not exist, the call grows the tracker's item list
to length 1 and writes the storage file. -/
theorem C2_counterexample :
    ((detect_plastic_items ⟨[], none⟩ [("BOTTLED WATER 1.99").data]
        "r").2.storage).isSome = true ∧
      (detect_plastic_items ⟨[], none⟩ [("BOTTLED WATER 1.99").data]
        "r").2.items.length = 1 :=
  ⟨rfl, rfl⟩

/-- C2 (amended): `detect_plastic_items` appends every constructed item to
the tracker's in-memory item list and then persists the whole item list to
the storage file (`save_items`); these are its only state effects, and the
returned items are exactly the appended suffix. -/
theorem C2_amended_effects (st : TrackerState) (items : List (List Char))
    (rid : String) :
    (detect_plastic_items st items rid).2.items =
        st.items ++ (detect_plastic_items st items rid).1 ∧
      (detect_plastic_items st items rid).2.storage =
        some ((detect_plastic_items st items rid).2.items) := by
  rw [detect_plastic_items_eq]
  exact ⟨rfl, rfl⟩

/-- C3: classification is first-match-wins in the fixed declaration order
bottle, container, bag, cup, utensil: `classifyLine` returns the head of
the declaration-ordered list of matching categories — so a line matching
two or more categories is assigned exactly the earliest-declared matching
one, and, `classifyLine` being a pure function, the assignment is the same
across runs — and a line matching no category produces no item at all. -/
theorem C3_first_match (item : List Char) (st : TrackerState) (rid : String) :
    classifyLine item = (matchingCategories item).head? ∧
      (matchingCategories item = [] →
        (detect_plastic_items st [item] rid).1 = []) := by
  refine ⟨classifyLine_eq item, fun hm => ?_⟩
  rw [detect_plastic_items_eq]
  simp [produceItems, classifyLine_eq, hm]

/-- C3 witness: WATER CUP 1 matches both bottle (WATER) and cup (CUP) and
is assigned bottle, the earlier declaration; ZZZ 9 matches nothing and
produces no item. -/
theorem C3_witness :
    classifyLine ("WATER CUP 1").data = some "bottle" ∧
      (detect_plastic_items ⟨[], none⟩ [("ZZZ 9").data] "r").1 = [] :=
  ⟨(C3_first_match ("WATER CUP 1").data ⟨[], none⟩ "r").1.trans (by decide),
   (C3_first_match ("ZZZ 9").data ⟨[], none⟩ "r").2 (by decide)⟩

/-- C6: `carbonFootprintGrams` is a pure function of the category alone:
two constructed items with the same category have the same footprint, and
the footprint is the fixed lookup of the category, whatever the name and
the receipt id. -/
theorem C6_footprint_purity (name name' : List Char)
    (category rid rid' : String) :
    (mkPlasticItem name category rid).carbon_footprint =
        (mkPlasticItem name' category rid').carbon_footprint ∧
      (mkPlasticItem name category rid).carbon_footprint =
        calculate_carbon_footprint category :=
  ⟨rfl, rfl⟩

/-- C4: the line filter keeps a line exactly when its trimmed-and-
uppercased form is non-empty, contains no exclusion keyword as a
substring, and has at least one digit and at least one letter, and each
output line is exactly that trimmed-and-uppercased form
(`get_items_only = filterLinesSpec`); in particular the letters-only line
THANK YOU and the digits-only line 123456 are always dropped. -/
theorem C4_filter_spec (text : List Char) :
    get_items_only text = filterLinesSpec text ∧
      get_items_only ("THANK YOU").data = [] ∧
      get_items_only ("123456").data = [] := by
  refine ⟨?_, by decide, by decide⟩
  unfold get_items_only filterLinesSpec
  exact List.filterMap_congr fun line _ => keep_line_eq_spec line

/-- C5: when the input bytes do not decode to an image, the pipeline
fails with `decodeError`, produces no items or partial result, and never
invokes the OCR stage (the result is the error whatever `ocr` is). -/
theorem C5_decode_error {Img Proc : Type} (decode : List Nat → Option Img)
    (transform : Img → Proc) (ocr : Proc → Except PipelineError (List Char))
    (image_bytes : List Nat) (h : decode image_bytes = none) :
    analyze_receipt decode transform ocr image_bytes =
      .error .decodeError := by
  simp only [analyze_receipt, preprocess_image, h]
  rfl

/-- C5 witness: a decoder that rejects everything makes the pipeline
return `decodeError` on the byte 0, for an OCR stage that would succeed
with empty text. -/
theorem C5_witness :
    analyze_receipt (fun _ => (none : Option Unit)) id
        (fun _ => Except.ok []) [0] = .error .decodeError :=
  C5_decode_error (fun _ => (none : Option Unit)) id (fun _ => Except.ok [])
    [0] rfl

/-- C7: the line filter is idempotent — joining the output lines with a
newline and filtering again returns exactly the same line sequence. -/
theorem C7_filter_idempotent (text : List Char) :
    get_items_only (List.intercalate ['\n'] (get_items_only text)) =
      get_items_only text := by
  have hprops : ∀ c ∈ get_items_only text,
      c ≠ [] ∧ BreakFree c ∧ keep_line c = some c := by
    intro c hc
    obtain ⟨line, hline, hkeep⟩ := List.mem_filterMap.mp hc
    exact ⟨(keep_line_some hkeep).2.2.1,
      keep_line_breakFree (splitlines_breakFree text line hline) hkeep,
      keep_line_fixed hkeep⟩
  have hsplit : splitlines (List.intercalate ['\n'] (get_items_only text)) =
      get_items_only text :=
    splitlines_intercalate _ fun l hl => ⟨(hprops l hl).1, (hprops l hl).2.1⟩
  calc get_items_only (List.intercalate ['\n'] (get_items_only text))
      = (splitlines (List.intercalate ['\n']
          (get_items_only text))).filterMap keep_line := rfl
    _ = (get_items_only text).filterMap keep_line := by rw [hsplit]
    _ = (get_items_only text).filterMap some :=
        List.filterMap_congr fun c hc => (hprops c hc).2.2
    _ = get_items_only text := List.filterMap_some _

/-- C8: order is preserved end to end — the filter's output is a sublist
of the per-line cleaned input lines in input order, and the classifier's
output items, projected to their source line (`name`), form a sublist of
the candidate-line sequence in input order. -/
theorem C8_order_preservation (text : List Char) (st : TrackerState)
    (items : List (List Char)) (rid : String) :
    (get_items_only text).Sublist
        ((splitlines text).map fun line => toUpperL (trimL line)) ∧
      ((detect_plastic_items st items rid).1.map fun item => item.name).Sublist
        items := by
  constructor
  · exact filterMap_sublist_map _ keep_line _ fun a b hb => (keep_line_some hb).1
  · rw [detect_plastic_items_eq]
    show ((produceItems rid items).map fun item => item.name).Sublist items
    rw [produceItems, List.map_filterMap]
    have h := filterMap_sublist_map items
      (fun item => ((classifyLine item).map fun category =>
        mkPlasticItem item category rid).map fun item => item.name)
      id ?_
    · rwa [List.map_id] at h
    · intro a b hb
      cases hc : classifyLine a with
      | none => simp [hc] at hb
      | some cat =>
        simp [hc, mkPlasticItem] at hb
        subst hb
        rfl

/-- C9: every item the classifier emits has its category in the fixed set
bottle, container, bag, cup, utensil, and the footprint lookup finds that
category in the table, so the defensive 40.0 default branch is unreachable
for classifier-produced items. -/
theorem C9_category_closed (st : TrackerState) (items : List (List Char))
    (rid : String) (it : PlasticItem)
    (h : it ∈ (detect_plastic_items st items rid).1) :
    it.category ∈ ["bottle", "container", "bag", "cup", "utensil"] ∧
      (footprints.find? fun p => p.1 == it.category).isSome = true := by
  rw [detect_plastic_items_eq] at h
  simp only [produceItems, List.mem_filterMap] at h
  obtain ⟨item, hitem, hsome⟩ := h
  cases hc : classifyLine item with
  | none => rw [hc] at hsome; cases hsome
  | some cat =>
    rw [hc] at hsome
    injection hsome with hsome
    have hcat : it.category = cat := by rw [← hsome]; rfl
    rw [classifyLine_eq] at hc
    obtain ⟨ys, hys⟩ := List.head?_eq_some_iff.mp hc
    have h1 : cat ∈ matchingCategories item := by
      rw [hys]; exact List.mem_cons_self _ _
    simp only [matchingCategories] at h1
    obtain ⟨p, hp, hfst⟩ := List.mem_map.mp h1
    have h2 : cat ∈ plastic_keywords.map Prod.fst :=
      List.mem_map.mpr ⟨p, (List.mem_filter.mp hp).1, hfst⟩
    rw [show plastic_keywords.map Prod.fst =
      ["bottle", "container", "bag", "cup", "utensil"] from rfl] at h2
    rw [hcat]
    refine ⟨h2, ?_⟩
    simp only [List.mem_cons, List.not_mem_nil, or_false] at h2
    rcases h2 with rfl | rfl | rfl | rfl | rfl <;> rfl

/-- C9 witness: the bottle item produced for BOTTLED WATER 1.99 has its
category in the fixed set and a successful footprint lookup. -/
theorem C9_witness :
    (mkPlasticItem ("BOTTLED WATER 1.99").data "bottle" "r").category ∈
        ["bottle", "container", "bag", "cup", "utensil"] ∧
      (footprints.find? fun p =>
        p.1 == (mkPlasticItem ("BOTTLED WATER 1.99").data "bottle"
          "r").category).isSome = true :=
  C9_category_closed ⟨[], none⟩ [("BOTTLED WATER 1.99").data] "r" _
    (show mkPlasticItem ("BOTTLED WATER 1.99").data "bottle" "r" ∈
        [mkPlasticItem ("BOTTLED WATER 1.99").data "bottle" "r"] from
      List.mem_singleton_self _)

/-- C10: exclusion matching is raw substring matching on the trimmed-and-
uppercased line, so any line whose cleaned form contains ID — such as
LIQUID SOAP 2.99, which has both letters and digits and would otherwise be
kept — is dropped by the filter. -/
theorem C10_id_substring (line : List Char)
    (h : containsSub ("ID").data (toUpperL (trimL line)) = true) :
    keep_line line = none ∧
      get_items_only ("LIQUID SOAP 2.99").data = [] ∧
      ((toUpperL (trimL ("LIQUID SOAP 2.99").data)).any Char.isDigit &&
        (toUpperL (trimL ("LIQUID SOAP 2.99").data)).any Char.isAlpha) =
          true := by
  refine ⟨?_, by decide, by decide⟩
  have hany : (excluded_keywords.any fun keyword =>
      containsSub keyword (toUpperL (trimL line))) = true :=
    List.any_eq_true.mpr ⟨("ID").data, by decide, h⟩
  simp [keep_line, hany]

/-- C10 witness: LIQUID SOAP 2.99 itself is dropped by the filter because
LIQUID contains ID. -/
theorem C10_witness :
    keep_line ("LIQUID SOAP 2.99").data = none ∧
      get_items_only ("LIQUID SOAP 2.99").data = [] ∧
      ((toUpperL (trimL ("LIQUID SOAP 2.99").data)).any Char.isDigit &&
        (toUpperL (trimL ("LIQUID SOAP 2.99").data)).any Char.isAlpha) =
          true :=
  C10_id_substring ("LIQUID SOAP 2.99").data (by decide)

end Recyclr
